import Mathlib

/-!
Verification development for a small C-like-to-MIPS compiler.

The AST layer (coercion casts, node constructors, the constant-folding
predicate declarations, the statement-level boolean compilation and the
variable assignment emission) is translated from `src/ast.hpp`.
The context, symbol and emission machinery lives in translation units that
are not part of the sources at hand; those parts are modelled from the
specification, as marked in the individual doc comments.
-/

/-- 32-bit wrap-around: reduce a natural number to its low 32 bits. -/
def w32 (n : Nat) : Nat := n % 4294967296

/-- Bit pattern of a C++ `int` value as an unsigned 32-bit natural. -/
def i32pat (v : Int) : Nat := (v % (4294967296 : Int)).toNat

/-- Modelled from the spec: a source span (filename, start line/column,
end line/column); `translation.hpp` with the concrete type is missing. -/
structure Location where
  filename : String
  beginLine : Nat
  beginColumn : Nat
  endLine : Nat
  endColumn : Nat
deriving DecidableEq

/-- Modelled from the spec: locations compose by taking the minimum start
and the maximum end (C++ `operator+` on locations, missing from src). -/
def Location.comb (a b : Location) : Location :=
  ⟨a.filename,
   min a.beginLine b.beginLine,
   if a.beginLine ≤ b.beginLine then a.beginColumn else b.beginColumn,
   max a.endLine b.endLine,
   if b.endLine ≤ a.endLine then a.endColumn else b.endColumn⟩

/-- A default location for concrete test inputs. -/
def locD : Location := ⟨"input", 1, 1, 1, 1⟩

/-- The error kinds the compiler core can raise: user-facing
`CompileError(location, message)`, internal `std::domain_error(message)`
thrown by operator constructors, and `assert(false)` failures on
branches the code marks as unreachable. -/
inductive CompilerErr where
  | compileError (location : Location) (message : String)
  | domainError (message : String)
  | assertionFailure
deriving DecidableEq

/-- `true` exactly on the user-facing `CompileError` kind: only this kind
reaches the diagnostics channel. -/
def CompilerErr.isCompileError : CompilerErr → Bool
  | .compileError _ _ => true
  | .domainError _ => false
  | .assertionFailure => false

/-- `true` when a result is an `Except.error` holding a user-facing
`CompileError`. -/
def erredWithCompileError {α : Type} : Except CompilerErr α → Bool
  | .error e => e.isCompileError
  | .ok _ => false

/-- Modelled from the spec: the `SymbolType` tagged variant
(`translation.hpp` is missing). -/
inductive SymbolType where
  | intType
  | boolType
  | voidType
  | arrayType (length : Nat)
  | stringType
deriving DecidableEq

/-- The accumulating output: an append-only pair of a text section and a
data section (the C++ `Code` class, modelled from the spec). -/
structure Code where
  text : String
  data : String
deriving DecidableEq

def Code.append (a b : Code) : Code := ⟨a.text ++ b.text, a.data ++ b.data⟩

instance : Append Code := ⟨Code.append⟩

/-- A code fragment holding only text-section content. -/
def Code.ofText (t : String) : Code := ⟨t, ""⟩

/-- The tab indentation prefix used for every emitted instruction. -/
def tab : String := "\t"

/-- Modelled from the spec: the storage-location variants of the symbol
table (`translation.hpp` is missing). -/
inductive CSymbol where
  | globalVariable (label : String)
  | localVariable (offset : Int)
  | parameterSlot (offset : Int)
  | arrayBase (base : String) (length : Nat)
  | literal (value : Int)
  | temporary (index : Nat)
deriving DecidableEq

/-- Modelled from the spec: `LoadValue(reg)` per symbol variant
(`lw` for variables, `la` for array bases, `li` for literals, `move`
from the reserved temporary register). -/
def CSymbol.LoadValue : CSymbol → String → Code
  | .globalVariable label, reg => Code.ofText (tab ++ "lw " ++ reg ++ ", " ++ label ++ "\n")
  | .localVariable off, reg => Code.ofText (tab ++ "lw " ++ reg ++ ", " ++ toString off ++ "($fp)\n")
  | .parameterSlot off, reg => Code.ofText (tab ++ "lw " ++ reg ++ ", " ++ toString off ++ "($fp)\n")
  | .arrayBase base _, reg => Code.ofText (tab ++ "la " ++ reg ++ ", " ++ base ++ "\n")
  | .literal v, reg => Code.ofText (tab ++ "li " ++ reg ++ ", " ++ toString v ++ "\n")
  | .temporary i, reg => Code.ofText (tab ++ "move " ++ reg ++ ", $t" ++ toString i ++ "\n")

/-- Modelled from the spec: `SaveValue(reg)` per symbol variant; array
bases and literals are unassignable, so their save path is the
unreachable branch of the base class. -/
def CSymbol.SaveValue : CSymbol → String → Except CompilerErr Code
  | .globalVariable label, reg => .ok (Code.ofText (tab ++ "sw " ++ reg ++ ", " ++ label ++ "\n"))
  | .localVariable off, reg => .ok (Code.ofText (tab ++ "sw " ++ reg ++ ", " ++ toString off ++ "($fp)\n"))
  | .parameterSlot off, reg => .ok (Code.ofText (tab ++ "sw " ++ reg ++ ", " ++ toString off ++ "($fp)\n"))
  | .arrayBase _ _, _ => .error .assertionFailure
  | .literal _, _ => .error .assertionFailure
  | .temporary i, reg => .ok (Code.ofText (tab ++ "move $t" ++ toString i ++ ", " ++ reg ++ "\n"))

/-- Modelled from the spec: the process-scoped context holding the
monotone label counter and the global symbol table. -/
structure GlobalContext where
  label_counter : Nat
  symbols : List (String × CSymbol)
deriving DecidableEq

/-- Modelled from the spec: mint a fresh label `L0`, `L1`, ... from the
monotone counter. -/
def GlobalContext.NewLabel (g : GlobalContext) : String × GlobalContext :=
  ("L" ++ toString g.label_counter, ⟨g.label_counter + 1, g.symbols⟩)

/-- Modelled from the spec: a per-block context chained towards the
global context; `scopes` lists the local scopes innermost first. -/
structure LocalContext where
  global_context : GlobalContext
  scopes : List (List (String × CSymbol))
deriving DecidableEq

/-- Walk the chain of local scopes for the nearest binding of a name. -/
def findInScopes : List (List (String × CSymbol)) → String → Option CSymbol
  | [], _ => none
  | sc :: rest, n =>
    match List.lookup n sc with
    | some s => some s
    | none => findInScopes rest n

/-- Modelled from the spec: scope lookup returns the nearest local
binding, otherwise the global binding, otherwise nothing (the C++
`LocalContext::operator[]`). -/
def LocalContext.lookup (ctx : LocalContext) (name : String) : Option CSymbol :=
  match findInScopes ctx.scopes name with
  | some s => some s
  | none => List.lookup name ctx.global_context.symbols

/-- Modelled from the spec: the transient expression context holding the
free temporary registers and the enclosing local context. -/
structure ExpressionContext where
  free_registers : List String
  local_context : LocalContext
deriving DecidableEq

/-- The full pool of temporary registers held by a fresh expression
context. -/
def allTemporaries : List String :=
  ["$t0", "$t1", "$t2", "$t3", "$t4", "$t5", "$t6", "$t7", "$t8", "$t9"]

/-- Modelled from the spec: `ExpressionContext inner = ctx` — a fresh
expression context carries the full temporary pool. -/
def ExpressionContext.fromLocal (ctx : LocalContext) : ExpressionContext :=
  ⟨allTemporaries, ctx⟩

/-- Reserve a temporary register by popping the pool. -/
def reserveTemp (ctx : ExpressionContext) : Option (String × ExpressionContext) :=
  match ctx.free_registers with
  | [] => none
  | t :: rest => some (t, ⟨rest, ctx.local_context⟩)

/-- Release a temporary register by pushing it back onto the pool. -/
def releaseTemp (r : String) (ctx : ExpressionContext) : ExpressionContext :=
  ⟨r :: ctx.free_registers, ctx.local_context⟩

mutual

/-- Value expressions of `src/ast.hpp`: the `ValueExpression` subtree
flattened to a tagged variant (constant, variable, array access, unary
and binary operator nodes, assignment, call, and the value cast around a
boolean child). -/
inductive ValueExpr where
  | constant (value : Int) (location : Location)
  | variable (name : String) (location : Location)
  | arrayAccess (name : String) (index : ValueExpr) (location : Location)
  | unary (op : String) (exp : ValueExpr) (location : Location)
  | binary (op : String) (exp1 exp2 : ValueExpr) (location : Location)
  | assignment (left : LValue) (exp : ValueExpr) (location : Location)
  | call (name : String) (args : List ValueExpr) (location : Location)
  | valueCast (exp : BoolExpr) (location : Location)

/-- Boolean expressions of `src/ast.hpp`: unary and binary boolean
operator nodes, relationals over value operands, and the boolean cast
around a value child. -/
inductive BoolExpr where
  | unaryBool (op : String) (exp : BoolExpr) (location : Location)
  | binaryBool (op : String) (exp1 exp2 : BoolExpr) (location : Location)
  | relational (op : String) (exp1 exp2 : ValueExpr) (location : Location)
  | boolCast (exp : ValueExpr) (location : Location)

/-- The lvalue expressions of `src/ast.hpp`: the only concrete
subclasses of `LValueExpression` are `VariableExpression` and
`ArrayAccessExpression`. -/
inductive LValue where
  | variable (name : String) (location : Location)
  | arrayAccess (name : String) (index : ValueExpr) (location : Location)

end

/-- The stored source location of a value expression. -/
def ValueExpr.location : ValueExpr → Location
  | .constant _ l => l
  | .variable _ l => l
  | .arrayAccess _ _ l => l
  | .unary _ _ l => l
  | .binary _ _ _ l => l
  | .assignment _ _ l => l
  | .call _ _ l => l
  | .valueCast _ l => l

/-- The stored source location of a boolean expression. -/
def BoolExpr.location : BoolExpr → Location
  | .unaryBool _ _ l => l
  | .binaryBool _ _ _ l => l
  | .relational _ _ _ l => l
  | .boolCast _ l => l

/-- The stored source location of an lvalue expression. -/
def LValue.location : LValue → Location
  | .variable _ l => l
  | .arrayAccess _ _ l => l

/-- The injection of the lvalue subclasses back into the value-expression
variants they are. -/
def LValue.toValueExpr : LValue → ValueExpr
  | .variable n l => .variable n l
  | .arrayAccess n i l => .arrayAccess n i l

/-- The `Expression` base category: a value expression, a boolean
expression, or a `StringLiteral` (which in `src/ast.hpp` derives from
`Expression` directly and belongs to neither category). -/
inductive Expr where
  | val (e : ValueExpr)
  | boolean (e : BoolExpr)
  | strLit (value : String) (location : Location)

/-- The stored source location of an expression. -/
def Expr.location : Expr → Location
  | .val e => e.location
  | .boolean e => e.location
  | .strLit _ l => l

/-- `ValueCast::IfNeeded` (src/ast.hpp lines 77-84): a value expression
is returned unchanged, a boolean expression is wrapped in one
`ValueCast` (whose location is the location of the wrapped child), and
anything else hits `assert(false)`. -/
def ValueCast.IfNeeded : Expr → Except CompilerErr ValueExpr
  | .val v => .ok v
  | .boolean b => .ok (.valueCast b b.location)
  | .strLit _ _ => .error .assertionFailure

/-- `BooleanCast::IfNeeded` (src/ast.hpp lines 103-110): a boolean
expression is returned unchanged, a value expression is wrapped in one
`BooleanCast`, and anything else hits `assert(false)`. -/
def BooleanCast.IfNeeded : Expr → Except CompilerErr BoolExpr
  | .boolean b => .ok b
  | .val v => .ok (.boolCast v v.location)
  | .strLit _ _ => .error .assertionFailure

/-- The `UnaryValueExpression` constructor (src/ast.hpp lines 122-127):
the child is value-coerced, the stored location is the composition of
the operator location with the child location, and an operator outside
`+`, `-`, `~` throws `std::domain_error("invalid operator")`. -/
def mkUnaryValueExpression (op : String) (exp : Expr) (loc : Location) :
    Except CompilerErr ValueExpr :=
  match ValueCast.IfNeeded exp with
  | .error e => .error e
  | .ok child =>
    if op ≠ "+" ∧ op ≠ "-" ∧ op ≠ "~" then
      .error (.domainError "invalid operator")
    else
      .ok (.unary op child (Location.comb loc exp.location))

/-- The `BinaryValueExpression` constructor (src/ast.hpp lines 150-156):
both children are value-coerced, the stored location is the composition
of the child locations, and an operator outside `+ - * / & | ^` throws
`std::domain_error("invalid operator")`. -/
def mkBinaryValueExpression (op : String) (exp1 exp2 : Expr) :
    Except CompilerErr ValueExpr :=
  match ValueCast.IfNeeded exp1 with
  | .error e => .error e
  | .ok child1 =>
    match ValueCast.IfNeeded exp2 with
    | .error e => .error e
    | .ok child2 =>
      if op ≠ "+" ∧ op ≠ "-" ∧ op ≠ "*" ∧ op ≠ "/" ∧ op ≠ "&" ∧ op ≠ "|" ∧ op ≠ "^" then
        .error (.domainError "invalid operator")
      else
        .ok (.binary op child1 child2 (Location.comb exp1.location exp2.location))

/-- The `ConstantExpression` constructor (src/ast.hpp lines 180-181). -/
def mkConstantExpression (value : Int) (loc : Location) : ValueExpr :=
  .constant value loc

/-- The `VariableExpression` constructor (src/ast.hpp lines 237-238). -/
def mkVariableExpression (name : String) (loc : Location) : LValue :=
  .variable name loc

/-- The `ArrayAccessExpression` constructor (src/ast.hpp lines 265-266):
the index child is value-coerced. -/
def mkArrayAccessExpression (name : String) (index : Expr) (loc : Location) :
    Except CompilerErr LValue :=
  match ValueCast.IfNeeded index with
  | .error e => .error e
  | .ok i => .ok (.arrayAccess name i loc)

/-- The `AssignmentExpression` constructor (src/ast.hpp lines 290-291):
the target is statically an lvalue expression, the right-hand side is
value-coerced, and the stored location is the composition of the two
child locations. -/
def mkAssignmentExpression (left : LValue) (exp : Expr) :
    Except CompilerErr ValueExpr :=
  match ValueCast.IfNeeded exp with
  | .error e => .error e
  | .ok child => .ok (.assignment left child (Location.comb left.location exp.location))

/-- The `UnaryBooleanExpression` constructor (src/ast.hpp lines 330-335):
the child is boolean-coerced and an operator other than `!` throws
`std::domain_error("invalid operator")`. -/
def mkUnaryBooleanExpression (op : String) (exp : Expr) (loc : Location) :
    Except CompilerErr BoolExpr :=
  match BooleanCast.IfNeeded exp with
  | .error e => .error e
  | .ok child =>
    if op ≠ "!" then
      .error (.domainError "invalid operator")
    else
      .ok (.unaryBool op child (Location.comb loc exp.location))

/-- The `BinaryBooleanExpression` constructor (src/ast.hpp lines 352-358):
both children are boolean-coerced and an operator outside `&&`, `||`
throws `std::domain_error("invalid operator")`. -/
def mkBinaryBooleanExpression (op : String) (exp1 exp2 : Expr) :
    Except CompilerErr BoolExpr :=
  match BooleanCast.IfNeeded exp1 with
  | .error e => .error e
  | .ok child1 =>
    match BooleanCast.IfNeeded exp2 with
    | .error e => .error e
    | .ok child2 =>
      if op ≠ "&&" ∧ op ≠ "||" then
        .error (.domainError "invalid operator")
      else
        .ok (.binaryBool op child1 child2 (Location.comb exp1.location exp2.location))

/-- The `RelationalExpression` constructor (src/ast.hpp lines 376-382):
both children are value-coerced and an operator outside the six
relational operators throws `std::domain_error("invalid operator")`. -/
def mkRelationalExpression (op : String) (exp1 exp2 : Expr) :
    Except CompilerErr BoolExpr :=
  match ValueCast.IfNeeded exp1 with
  | .error e => .error e
  | .ok child1 =>
    match ValueCast.IfNeeded exp2 with
    | .error e => .error e
    | .ok child2 =>
      if op ≠ "==" ∧ op ≠ "!=" ∧ op ≠ "<=" ∧ op ≠ ">=" ∧ op ≠ "<" ∧ op ≠ ">" then
        .error (.domainError "invalid operator")
      else
        .ok (.relational op child1 child2 (Location.comb exp1.location exp2.location))

mutual

/-- The statement variants of `src/ast.hpp`. -/
inductive Stmt where
  | emptyS (location : Location)
  | exprS (e : Expr)
  | varDecl (name : String) (type : SymbolType) (location : Location)
  | continueS (location : Location)
  | breakS (location : Location)
  | returnS (exp : Option ValueExpr) (location : Location)
  | blockS (b : StatementBlock)
  | ifElseS (condition : BoolExpr) (then_block else_block : StatementBlock)
      (location : Location)
  | switchS (s : SwitchStatement)
  | whileS (condition : BoolExpr) (body : StatementBlock) (location : Location)
  | forS (initializer : List Stmt) (condition : BoolExpr) (step : Expr)
      (body : StatementBlock) (location : Location)

/-- A `StatementBlock`: a list of statements with a location. -/
inductive StatementBlock where
  | mk (statements : List Stmt) (location : Location)

/-- A `SwitchStatement`: the controlling expression (set after
construction), the case values (`none` marking the default case) and
the case bodies. -/
inductive SwitchStatement where
  | mk (exp : Option ValueExpr) (case_values : List (Option Int))
      (case_bodies : List (List Stmt)) (location : Location)

end

/-- The statements of a block. -/
def StatementBlock.statements : StatementBlock → List Stmt
  | .mk s _ => s

/-- The location of a block. -/
def StatementBlock.location : StatementBlock → Location
  | .mk _ l => l

/-- The controlling expression of a switch statement. -/
def SwitchStatement.exp : SwitchStatement → Option ValueExpr
  | .mk e _ _ _ => e

/-- `SwitchStatement::SetExpression` (src/ast.hpp lines 563-566): the
controlling expression is value-coerced. -/
def SwitchStatement.SetExpression (s : SwitchStatement) (e : Expr) :
    Except CompilerErr SwitchStatement :=
  match s with
  | .mk _ cv cb l =>
    match ValueCast.IfNeeded e with
    | .error err => .error err
    | .ok v => .ok (.mk (some v) cv cb l)

/-- The expression-carrying `ReturnStatement` constructor
(src/ast.hpp lines 459-460): the returned expression is value-coerced. -/
def mkReturnStatement (exp : Expr) (loc : Location) : Except CompilerErr Stmt :=
  match ValueCast.IfNeeded exp with
  | .error e => .error e
  | .ok v => .ok (.returnS (some v) loc)

/-- The `IfElseStatement` constructor (src/ast.hpp lines 524-527): the
condition is boolean-coerced. -/
def mkIfElseStatement (condition : Expr) (then_block else_block : StatementBlock)
    (loc : Location) : Except CompilerErr Stmt :=
  match BooleanCast.IfNeeded condition with
  | .error e => .error e
  | .ok c => .ok (.ifElseS c then_block else_block loc)

/-- The `WhileStatement` constructor (src/ast.hpp lines 590-591): the
condition is boolean-coerced. -/
def mkWhileStatement (condition : Expr) (body : StatementBlock) (loc : Location) :
    Except CompilerErr Stmt :=
  match BooleanCast.IfNeeded condition with
  | .error e => .error e
  | .ok c => .ok (.whileS c body loc)

/-- The `ForStatement` constructor (src/ast.hpp lines 613-617): the
condition is boolean-coerced, the step is stored uncoerced, and the
stored location is the composition of the statement location with the
body location. -/
def mkForStatement (initializer : List Stmt) (condition : Expr) (step : Expr)
    (body : StatementBlock) (loc : Location) : Except CompilerErr Stmt :=
  match BooleanCast.IfNeeded condition with
  | .error e => .error e
  | .ok c => .ok (.forS initializer c step body (Location.comb loc body.location))

/-- A `VariableDeclaration` node (src/ast.hpp lines 404-405). -/
structure VariableDeclaration where
  name : String
  type : SymbolType
  location : Location

/-- A `FunctionDefinition` node (src/ast.hpp lines 691-698); the
constructor body is in a missing translation unit, modelled from the
spec as storing its arguments. -/
structure FunctionDefinition where
  name : String
  type : SymbolType
  params : List VariableDeclaration
  body : StatementBlock
  location : Location

/-- Modelled from the spec: the `FunctionDefinition` constructor stores
its arguments (the body is in a translation unit missing from src). -/
def mkFunctionDefinition (name : String) (type : SymbolType)
    (params : List VariableDeclaration) (body : StatementBlock)
    (loc : Location) : FunctionDefinition :=
  ⟨name, type, params, body, loc⟩

/-- The `MainFunctionDefinition` constructor (src/ast.hpp lines 721-722):
it delegates to the `FunctionDefinition` constructor with the fixed name
`"main"` and an empty parameter list. -/
def mkMainFunctionDefinition (type : SymbolType) (body : StatementBlock)
    (loc : Location) : FunctionDefinition :=
  mkFunctionDefinition "main" type [] body loc

/-- Modelled from the spec: folding of a unary value operator on an i32
bit pattern (`+` is the identity, `-` wraps the negation, `~` is the
bitwise complement). -/
def applyUnary (op : String) (a : Nat) : Option Nat :=
  if op = "+" then some a
  else if op = "-" then some (w32 (4294967296 - a))
  else if op = "~" then some (a ^^^ 4294967295)
  else none

/-- Modelled from the spec: folding of a binary value operator on i32
bit patterns with wrap-around arithmetic; `/` uses unsigned-division
semantics (MIPS `divu`) and division by zero leaves the result
unfolded. -/
def applyBinary (op : String) (a b : Nat) : Option Nat :=
  if op = "+" then some (w32 (a + b))
  else if op = "-" then some (w32 (a + 4294967296 - b))
  else if op = "*" then some (w32 (a * b))
  else if op = "/" then (if b = 0 then none else some (a / b))
  else if op = "&" then some (a &&& b)
  else if op = "|" then some (a ||| b)
  else if op = "^" then some (a ^^^ b)
  else none

/-- The constant-folding predicate `Precomputable` over value
expressions, returned as the folded i32 bit pattern.  The base
`ValueExpression::Precomputable` (src/ast.hpp lines 37-40) returns
false, `ConstantExpression::Precomputable` (lines 185-189) returns the
stored constant; the `UnaryValueExpression` and `BinaryValueExpression`
overrides live in a missing translation unit and are modelled from the
spec: they fold exactly when all children fold (and, for `/`, the
divisor folds to a nonzero value). -/
def ValueExpr.Precomputable : ValueExpr → Option Nat
  | .constant v _ => some (i32pat v)
  | .variable _ _ => none
  | .arrayAccess _ _ _ => none
  | .unary op e _ =>
    match e.Precomputable with
    | none => none
    | some a => applyUnary op a
  | .binary op e1 e2 _ =>
    match e1.Precomputable with
    | none => none
    | some a =>
      match e2.Precomputable with
      | none => none
      | some b => applyBinary op a b
  | .assignment _ _ _ => none
  | .call _ _ _ => none
  | .valueCast _ _ => none

/-- `StringLiteral::Precomputable` (src/ast.hpp lines 208-211): a string
literal never folds. -/
def StringLiteral.Precomputable (value : String) (loc : Location) : Option Nat :=
  none

/-- `StringLiteral::Evaluate` (src/ast.hpp lines 213-216): evaluating a
string literal hits `assert(false)` — the branch the code marks
`must not happen`. -/
def StringLiteral.Evaluate (value : String) (loc : Location)
    (ctx : ExpressionContext) : Except CompilerErr (Code × CSymbol) :=
  .error .assertionFailure

/-- `true` when a constructor result is a successfully built node. -/
def isOkE {α : Type} : Except CompilerErr α → Bool
  | .ok _ => true
  | .error _ => false

/-- `UnaryValueExpression::op_to_instruction` (src/ast.hpp lines
142-143). -/
def UnaryValueExpression.op_to_instruction : List (String × String) :=
  [("+", "move"), ("-", "negu"), ("~", "not")]

/-- `BinaryValueExpression::op_to_instruction` (src/ast.hpp lines
172-173). -/
def BinaryValueExpression.op_to_instruction : List (String × String) :=
  [("+", "addu"), ("-", "subu"), ("*", "mul"), ("/", "divu"),
   ("&", "and"), ("|", "or"), ("^", "xor")]

/-- `RelationalExpression::op_to_instruction` (src/ast.hpp lines
396-397). -/
def RelationalExpression.op_to_instruction : List (String × String) :=
  [("==", "beq"), ("!=", "bne"), (">", "bgt"), (">=", "bge"),
   ("<", "blt"), ("<=", "ble")]

/-- The MIPS instructions the straight-line value-expression emitter
produces. -/
inductive Instr where
  | li (rd : String) (imm : Nat)
  | move (rd rs : String)
  | negu (rd rs : String)
  | notI (rd rs : String)
  | addu (rd rs rt : String)
  | subu (rd rs rt : String)
  | mul (rd rs rt : String)
  | divu (rd rs rt : String)
  | andI (rd rs rt : String)
  | orI (rd rs rt : String)
  | xorI (rd rs rt : String)
deriving DecidableEq

/-- A register file: a total map from register names to contents. -/
def RegFile := String → Nat

/-- Write one register of a register file. -/
def setReg (f : RegFile) (r : String) (v : Nat) : RegFile :=
  fun x => if x = r then v else f x

/-- Single-instruction semantics over a register file, with MIPS
unsigned (wrap-around) arithmetic. -/
def Instr.exec : Instr → RegFile → RegFile
  | .li rd imm, f => setReg f rd (w32 imm)
  | .move rd rs, f => setReg f rd (f rs)
  | .negu rd rs, f => setReg f rd (w32 (4294967296 - f rs))
  | .notI rd rs, f => setReg f rd (f rs ^^^ 4294967295)
  | .addu rd rs rt, f => setReg f rd (w32 (f rs + f rt))
  | .subu rd rs rt, f => setReg f rd (w32 (f rs + 4294967296 - f rt))
  | .mul rd rs rt, f => setReg f rd (w32 (f rs * f rt))
  | .divu rd rs rt, f => setReg f rd (f rs / f rt)
  | .andI rd rs rt, f => setReg f rd (f rs &&& f rt)
  | .orI rd rs rt, f => setReg f rd (f rs ||| f rt)
  | .xorI rd rs rt, f => setReg f rd (f rs ^^^ f rt)

/-- Run a straight-line instruction sequence. -/
def runInstrs (is : List Instr) (f : RegFile) : RegFile :=
  match is with
  | [] => f
  | i :: rest => runInstrs rest (i.exec f)

/-- Build the unary instruction named by the
`UnaryValueExpression::op_to_instruction` mnemonic. -/
def mkUnaryInstr (m : String) (rd rs : String) : Option Instr :=
  if m = "move" then some (.move rd rs)
  else if m = "negu" then some (.negu rd rs)
  else if m = "not" then some (.notI rd rs)
  else none

/-- Build the binary instruction named by the
`BinaryValueExpression::op_to_instruction` mnemonic. -/
def mkBinaryInstr (m : String) (rd rs rt : String) : Option Instr :=
  if m = "addu" then some (.addu rd rs rt)
  else if m = "subu" then some (.subu rd rs rt)
  else if m = "mul" then some (.mul rd rs rt)
  else if m = "divu" then some (.divu rd rs rt)
  else if m = "and" then some (.andI rd rs rt)
  else if m = "or" then some (.orI rd rs rt)
  else if m = "xor" then some (.xorI rd rs rt)
  else none

/-- Modelled from the spec: the straight-line emitter for the foldable
value-expression fragment (`Evaluate` of `ConstantExpression`,
`UnaryValueExpression` and `BinaryValueExpression`, whose bodies are in
a missing translation unit).  A constant loads its value into a freshly
reserved temporary with `li`; operator nodes evaluate their children
left to right, release the child temporaries, reserve the result
temporary and emit the instruction mapped by `op_to_instruction`.
Nodes outside the fragment are not handled here. -/
def ValueExpr.EvaluateF : ValueExpr → ExpressionContext →
    Option (List Instr × String × ExpressionContext)
  | .constant v _, ctx =>
    match reserveTemp ctx with
    | none => none
    | some (t, ctx1) => some ([Instr.li t (i32pat v)], t, ctx1)
  | .unary op e _, ctx =>
    match e.EvaluateF ctx with
    | none => none
    | some (c, r, ctx1) =>
      match reserveTemp (releaseTemp r ctx1) with
      | none => none
      | some (t, ctx2) =>
        match List.lookup op UnaryValueExpression.op_to_instruction with
        | none => none
        | some m =>
          match mkUnaryInstr m t r with
          | none => none
          | some instr => some (c ++ [instr], t, ctx2)
  | .binary op e1 e2 _, ctx =>
    match e1.EvaluateF ctx with
    | none => none
    | some (c1, r1, ctx1) =>
      match e2.EvaluateF ctx1 with
      | none => none
      | some (c2, r2, ctx2) =>
        match reserveTemp (releaseTemp r2 (releaseTemp r1 ctx2)) with
        | none => none
        | some (t, ctx3) =>
          match List.lookup op BinaryValueExpression.op_to_instruction with
          | none => none
          | some m =>
            match mkBinaryInstr m t r1 r2 with
            | none => none
            | some instr => some (c1 ++ c2 ++ [instr], t, ctx3)
  | .variable _ _, _ => none
  | .arrayAccess _ _ _, _ => none
  | .assignment _ _ _, _ => none
  | .call _ _ _, _ => none
  | .valueCast _ _, _ => none

/-- `VariableExpression::Assign` (src/ast.hpp lines 244-253): look the
name up through the context chain; an unresolved name throws
`CompileError(location, undefined symbol "name")`, a resolved one emits
the load of the source value into `$v0` followed by the save of the
resolved symbol from `$v0`. -/
def VariableExpression.Assign (name : String) (location : Location)
    (ctx : LocalContext) (value : CSymbol) : Except CompilerErr Code :=
  match ctx.lookup name with
  | none => .error (.compileError location ("undefined symbol \"" ++ name ++ "\""))
  | some symbol =>
    match symbol.SaveValue "$v0" with
    | .error e => .error e
    | .ok save => .ok (value.LoadValue "$v0" ++ save)

/-- The virtual-dispatch outcome of `LValueExpression::Assign`: the
override of `VariableExpression`, the override of
`ArrayAccessExpression`, or the `assert(false)` default of the base
class (src/ast.hpp line 230). -/
inductive AssignDispatch where
  | viaVariable
  | viaArrayAccess
  | baseDefault
deriving DecidableEq

/-- Which `Assign` implementation virtual dispatch selects for a value
expression used as an assignment target. -/
def assignDispatch : ValueExpr → AssignDispatch
  | .variable _ _ => .viaVariable
  | .arrayAccess _ _ _ => .viaArrayAccess
  | _ => .baseDefault

/-- The lvalue predicate on value-expression variants. -/
def isLValue : ValueExpr → Bool
  | .variable _ _ => true
  | .arrayAccess _ _ _ => true
  | _ => false

/-- `BooleanExpression::Compile` (src/ast.hpp lines 56-61): mint one
fresh label from the global counter, build a fresh expression context,
evaluate the expression with that label as both the true target and the
false target, and append the label definition after the evaluated code.
The virtual `Evaluate` is passed as a function, as the base class sees
it. -/
def BooleanExpression.Compile
    (Evaluate : ExpressionContext → String → String → Code × ExpressionContext)
    (ctx : LocalContext) : Code × LocalContext :=
  let labelled := ctx.global_context.NewLabel
  let ctx1 : LocalContext := ⟨labelled.2, ctx.scopes⟩
  let inner := ExpressionContext.fromLocal ctx1
  let evaluated := Evaluate inner labelled.1 labelled.1
  (evaluated.1 ++ Code.ofText (tab ++ labelled.1 ++ ":\n"),
   evaluated.2.local_context)

/-- A concrete local context with no bindings, for concrete runs. -/
def localT : LocalContext := ⟨⟨0, []⟩, []⟩

/-- A concrete fresh expression context, for concrete runs. -/
def ctxT : ExpressionContext := ExpressionContext.fromLocal localT

/-- A concrete local context binding `x` to a local variable slot. -/
def ctxW : LocalContext := ⟨⟨0, []⟩, [[("x", CSymbol.localVariable (-4))]]⟩

/-! ### Helper lemmas -/

theorem i32pat_lt (v : Int) : i32pat v < 4294967296 := by
  unfold i32pat
  have h1 : v % (4294967296 : Int) < 4294967296 :=
    Int.emod_lt_of_pos v (by norm_num)
  have h2 : (0 : Int) ≤ v % (4294967296 : Int) :=
    Int.emod_nonneg v (by norm_num)
  omega

theorem w32_lt (n : Nat) : w32 n < 4294967296 := Nat.mod_lt n (by norm_num)

theorem w32_eq_of_lt {n : Nat} (h : n < 4294967296) : w32 n = n :=
  Nat.mod_eq_of_lt h

theorem applyUnary_lt {op : String} {a r : Nat} (ha : a < 4294967296)
    (h : applyUnary op a = some r) : r < 4294967296 := by
  unfold applyUnary at h
  split_ifs at h <;> injection h with h <;> subst h
  · exact ha
  · exact w32_lt _
  · have : (4294967295 : Nat) < 2 ^ 32 := by norm_num
    have ha' : a < 2 ^ 32 := by norm_num at ha ⊢; exact ha
    have := Nat.xor_lt_two_pow ha' this
    norm_num at this ⊢
    exact this

theorem applyBinary_lt {op : String} {a b r : Nat} (ha : a < 4294967296)
    (hb : b < 4294967296) (h : applyBinary op a b = some r) :
    r < 4294967296 := by
  have ha' : a < 2 ^ 32 := by norm_num at ha ⊢; exact ha
  have hb' : b < 2 ^ 32 := by norm_num at hb ⊢; exact hb
  unfold applyBinary at h
  split_ifs at h <;> first
    | (injection h with h; subst h; first
        | exact w32_lt _
        | exact Nat.lt_of_le_of_lt (Nat.div_le_self a b) ha
        | (have hq := Nat.and_lt_two_pow a hb'; norm_num at hq ⊢; exact hq)
        | (have hq := Nat.or_lt_two_pow ha' hb'; norm_num at hq ⊢; exact hq)
        | (have hq := Nat.xor_lt_two_pow ha' hb'; norm_num at hq ⊢; exact hq))
    | exact absurd h (by simp)

theorem precompute_lt : ∀ (e : ValueExpr) (r : Nat),
    e.Precomputable = some r → r < 4294967296
  | .constant v _, r, h => by
    unfold ValueExpr.Precomputable at h
    injection h with h
    subst h
    exact i32pat_lt v
  | .unary op e _, r, h => by
    unfold ValueExpr.Precomputable at h
    cases he : e.Precomputable with
    | none => rw [he] at h; exact absurd h (by simp)
    | some a =>
      rw [he] at h
      exact applyUnary_lt (precompute_lt e a he) h
  | .binary op e1 e2 _, r, h => by
    unfold ValueExpr.Precomputable at h
    cases h1 : e1.Precomputable with
    | none => rw [h1] at h; exact absurd h (by simp)
    | some a =>
      cases h2 : e2.Precomputable with
      | none => rw [h1, h2] at h; exact absurd h (by simp)
      | some b =>
        rw [h1, h2] at h
        exact applyBinary_lt (precompute_lt e1 a h1) (precompute_lt e2 b h2) h
  | .variable _ _, r, h => by exact absurd h (by simp [ValueExpr.Precomputable])
  | .arrayAccess _ _ _, r, h => by exact absurd h (by simp [ValueExpr.Precomputable])
  | .assignment _ _ _, r, h => by exact absurd h (by simp [ValueExpr.Precomputable])
  | .call _ _ _, r, h => by exact absurd h (by simp [ValueExpr.Precomputable])
  | .valueCast _ _, r, h => by exact absurd h (by simp [ValueExpr.Precomputable])

theorem runInstrs_append (a b : List Instr) (f : RegFile) :
    runInstrs (a ++ b) f = runInstrs b (runInstrs a f) := by
  induction a generalizing f with
  | nil => rfl
  | cons i rest ih => simp [runInstrs, ih]

theorem unary_instr_exec {op m t rs : String} {instr : Instr} {a r : Nat}
    (hlk : List.lookup op UnaryValueExpression.op_to_instruction = some m)
    (hmi : mkUnaryInstr m t rs = some instr)
    (hab : applyUnary op a = some r) :
    ∀ g : RegFile, g rs = a →
      (instr.exec g) t = r ∧ ∀ x, x ≠ t → instr.exec g x = g x := by
  intro g hg
  by_cases h1 : op = "+"
  · subst h1
    have hm : m = "move" := by
      have : List.lookup "+" UnaryValueExpression.op_to_instruction = some "move" := by rfl
      rw [this] at hlk; injection hlk with h; exact h.symm
    subst hm
    have hi : instr = .move t rs := by
      simp [mkUnaryInstr] at hmi; exact hmi.symm
    subst hi
    have hr : r = a := by simp [applyUnary] at hab; omega
    subst hr
    constructor
    · simp [Instr.exec, setReg, hg]
    · intro x hx; simp [Instr.exec, setReg, hx]
  by_cases h2 : op = "-"
  · subst h2
    have hm : m = "negu" := by
      have : List.lookup "-" UnaryValueExpression.op_to_instruction = some "negu" := by rfl
      rw [this] at hlk; injection hlk with h; exact h.symm
    subst hm
    have hi : instr = .negu t rs := by
      simp [mkUnaryInstr] at hmi; exact hmi.symm
    subst hi
    have hr : r = w32 (4294967296 - a) := by simp [applyUnary] at hab; omega
    subst hr
    constructor
    · simp [Instr.exec, setReg, hg]
    · intro x hx; simp [Instr.exec, setReg, hx]
  by_cases h3 : op = "~"
  · subst h3
    have hm : m = "not" := by
      have : List.lookup "~" UnaryValueExpression.op_to_instruction = some "not" := by rfl
      rw [this] at hlk; injection hlk with h; exact h.symm
    subst hm
    have hi : instr = .notI t rs := by
      simp [mkUnaryInstr] at hmi; exact hmi.symm
    subst hi
    have hr : r = a ^^^ 4294967295 := by
      simp [applyUnary, h1, h2] at hab; omega
    subst hr
    constructor
    · simp [Instr.exec, setReg, hg]
    · intro x hx; simp [Instr.exec, setReg, hx]
  · exfalso
    have b1 : (op == "+") = false := beq_eq_false_iff_ne.mpr h1
    have b2 : (op == "-") = false := beq_eq_false_iff_ne.mpr h2
    have b3 : (op == "~") = false := beq_eq_false_iff_ne.mpr h3
    simp [UnaryValueExpression.op_to_instruction, List.lookup, b1, b2, b3] at hlk

theorem binary_instr_exec {op m t rs rt : String} {instr : Instr} {a b r : Nat}
    (hlk : List.lookup op BinaryValueExpression.op_to_instruction = some m)
    (hmi : mkBinaryInstr m t rs rt = some instr)
    (hab : applyBinary op a b = some r) :
    ∀ g : RegFile, g rs = a → g rt = b →
      (instr.exec g) t = r ∧ ∀ x, x ≠ t → instr.exec g x = g x := by
  intro g hgs hgt
  by_cases h1 : op = "+"
  · subst h1
    have hm : m = "addu" := by
      have : List.lookup "+" BinaryValueExpression.op_to_instruction = some "addu" := by rfl
      rw [this] at hlk; injection hlk with h; exact h.symm
    subst hm
    have hi : instr = .addu t rs rt := by
      simp [mkBinaryInstr] at hmi; exact hmi.symm
    subst hi
    have hr : r = w32 (a + b) := by
      simp [applyBinary] at hab; omega
    subst hr
    constructor
    · simp [Instr.exec, setReg, hgs, hgt]
    · intro x hx; simp [Instr.exec, setReg, hx]
  by_cases h2 : op = "-"
  · subst h2
    have hm : m = "subu" := by
      have : List.lookup "-" BinaryValueExpression.op_to_instruction = some "subu" := by rfl
      rw [this] at hlk; injection hlk with h; exact h.symm
    subst hm
    have hi : instr = .subu t rs rt := by
      simp [mkBinaryInstr] at hmi; exact hmi.symm
    subst hi
    have hr : r = w32 (a + 4294967296 - b) := by
      simp [applyBinary, h1] at hab; omega
    subst hr
    constructor
    · simp [Instr.exec, setReg, hgs, hgt]
    · intro x hx; simp [Instr.exec, setReg, hx]
  by_cases h3 : op = "*"
  · subst h3
    have hm : m = "mul" := by
      have : List.lookup "*" BinaryValueExpression.op_to_instruction = some "mul" := by rfl
      rw [this] at hlk; injection hlk with h; exact h.symm
    subst hm
    have hi : instr = .mul t rs rt := by
      simp [mkBinaryInstr] at hmi; exact hmi.symm
    subst hi
    have hr : r = w32 (a * b) := by
      simp [applyBinary, h1, h2] at hab; omega
    subst hr
    constructor
    · simp [Instr.exec, setReg, hgs, hgt]
    · intro x hx; simp [Instr.exec, setReg, hx]
  by_cases h4 : op = "/"
  · subst h4
    have hm : m = "divu" := by
      have : List.lookup "/" BinaryValueExpression.op_to_instruction = some "divu" := by rfl
      rw [this] at hlk; injection hlk with h; exact h.symm
    subst hm
    have hi : instr = .divu t rs rt := by
      simp [mkBinaryInstr] at hmi; exact hmi.symm
    subst hi
    have hb0 : b ≠ 0 ∧ r = a / b := by
      simp [applyBinary, h1, h2, h3] at hab
      rcases hab with ⟨hb, hr⟩; exact ⟨hb, hr.symm⟩
    obtain ⟨hb0ne, hr⟩ := hb0
    subst hr
    constructor
    · simp [Instr.exec, setReg, hgs, hgt]
    · intro x hx; simp [Instr.exec, setReg, hx]
  by_cases h5 : op = "&"
  · subst h5
    have hm : m = "and" := by
      have : List.lookup "&" BinaryValueExpression.op_to_instruction = some "and" := by rfl
      rw [this] at hlk; injection hlk with h; exact h.symm
    subst hm
    have hi : instr = .andI t rs rt := by
      simp [mkBinaryInstr] at hmi; exact hmi.symm
    subst hi
    have hr : r = a &&& b := by
      simp [applyBinary, h1, h2, h3, h4] at hab; omega
    subst hr
    constructor
    · simp [Instr.exec, setReg, hgs, hgt]
    · intro x hx; simp [Instr.exec, setReg, hx]
  by_cases h6 : op = "|"
  · subst h6
    have hm : m = "or" := by
      have : List.lookup "|" BinaryValueExpression.op_to_instruction = some "or" := by rfl
      rw [this] at hlk; injection hlk with h; exact h.symm
    subst hm
    have hi : instr = .orI t rs rt := by
      simp [mkBinaryInstr] at hmi; exact hmi.symm
    subst hi
    have hr : r = a ||| b := by
      simp [applyBinary, h1, h2, h3, h4, h5] at hab; omega
    subst hr
    constructor
    · simp [Instr.exec, setReg, hgs, hgt]
    · intro x hx; simp [Instr.exec, setReg, hx]
  by_cases h7 : op = "^"
  · subst h7
    have hm : m = "xor" := by
      have : List.lookup "^" BinaryValueExpression.op_to_instruction = some "xor" := by rfl
      rw [this] at hlk; injection hlk with h; exact h.symm
    subst hm
    have hi : instr = .xorI t rs rt := by
      simp [mkBinaryInstr] at hmi; exact hmi.symm
    subst hi
    have hr : r = a ^^^ b := by
      simp [applyBinary, h1, h2, h3, h4, h5, h6] at hab; omega
    subst hr
    constructor
    · simp [Instr.exec, setReg, hgs, hgt]
    · intro x hx; simp [Instr.exec, setReg, hx]
  · exfalso
    have b1 : (op == "+") = false := beq_eq_false_iff_ne.mpr h1
    have b2 : (op == "-") = false := beq_eq_false_iff_ne.mpr h2
    have b3 : (op == "*") = false := beq_eq_false_iff_ne.mpr h3
    have b4 : (op == "/") = false := beq_eq_false_iff_ne.mpr h4
    have b5 : (op == "&") = false := beq_eq_false_iff_ne.mpr h5
    have b6 : (op == "|") = false := beq_eq_false_iff_ne.mpr h6
    have b7 : (op == "^") = false := beq_eq_false_iff_ne.mpr h7
    simp [BinaryValueExpression.op_to_instruction, List.lookup, b1, b2, b3, b4, b5, b6, b7] at hlk

theorem evalF_spec : ∀ (e : ValueExpr) (ctx : ExpressionContext) (r : Nat)
    (is : List Instr) (reg : String) (ctx' : ExpressionContext),
    e.Precomputable = some r →
    e.EvaluateF ctx = some (is, reg, ctx') →
    ctx.free_registers.Nodup →
    reg ∈ ctx.free_registers ∧
    (∀ x, x ∈ ctx'.free_registers → x ∈ ctx.free_registers) ∧
    reg ∉ ctx'.free_registers ∧
    ctx'.free_registers.Nodup ∧
    (∀ (f : RegFile) (x : String), x ∉ ctx.free_registers → runInstrs is f x = f x) ∧
    (∀ f : RegFile, runInstrs is f reg = r)
  | .constant v l, ctx, r, is, reg, ctx', hp, he, hn => by
    obtain ⟨free, lc⟩ := ctx
    simp [ValueExpr.Precomputable] at hp
    unfold ValueExpr.EvaluateF at he
    cases free with
    | nil => simp [reserveTemp] at he
    | cons t rest =>
      simp [reserveTemp] at he
      obtain ⟨h1, h2, h3⟩ := he
      subst h1; subst h2; subst h3; subst hp
      simp only [List.nodup_cons] at hn
      refine ⟨List.mem_cons_self t rest, ?_, hn.1, hn.2, ?_, ?_⟩
      · intro x hx; exact List.mem_cons_of_mem _ hx
      · intro f x hx
        have hxt : x ≠ t := fun h => hx (h ▸ List.mem_cons_self t rest)
        simp [runInstrs, Instr.exec, setReg, hxt]
      · intro f
        simp [runInstrs, Instr.exec, setReg, w32_eq_of_lt (i32pat_lt v)]
  | .unary op e l, ctx, r, is, reg, ctx', hp, he, hn => by
    unfold ValueExpr.Precomputable at hp
    cases hpe : e.Precomputable with
    | none => rw [hpe] at hp; exact absurd hp (by simp)
    | some a =>
      rw [hpe] at hp
      simp only [] at hp
      unfold ValueExpr.EvaluateF at he
      cases hee : e.EvaluateF ctx with
      | none => rw [hee] at he; simp at he
      | some res =>
        obtain ⟨c, r1, ctx1⟩ := res
        rw [hee] at he
        simp [releaseTemp, reserveTemp] at he
        cases hlk : List.lookup op UnaryValueExpression.op_to_instruction with
        | none => rw [hlk] at he; simp at he
        | some m =>
          rw [hlk] at he
          simp only [] at he
          cases hmi : mkUnaryInstr m r1 r1 with
          | none => rw [hmi] at he; simp at he
          | some instr =>
            rw [hmi] at he
            simp at he
            obtain ⟨h1, h2, h3⟩ := he
            subst h1; subst h2; subst h3
            obtain ⟨a1, a2, a3, a4, a5, a6⟩ :=
              evalF_spec e ctx a c r1 ctx1 hpe hee hn
            have hexec := unary_instr_exec hlk hmi hp
            refine ⟨a1, a2, a3, a4, ?_, ?_⟩
            · intro f x hx
              rw [runInstrs_append]
              have hxr1 : x ≠ r1 := fun h => hx (h ▸ a1)
              have hstep := (hexec (runInstrs c f) (a6 f)).2 x hxr1
              simp only [runInstrs] at hstep ⊢
              rw [hstep, a5 f x hx]
            · intro f
              rw [runInstrs_append]
              have hstep := (hexec (runInstrs c f) (a6 f)).1
              simp only [runInstrs] at hstep ⊢
              exact hstep
  | .binary op e1 e2 l, ctx, r, is, reg, ctx', hp, he, hn => by
    unfold ValueExpr.Precomputable at hp
    cases hp1 : e1.Precomputable with
    | none => rw [hp1] at hp; exact absurd hp (by simp)
    | some a =>
      cases hp2 : e2.Precomputable with
      | none => rw [hp1, hp2] at hp; exact absurd hp (by simp)
      | some b =>
        rw [hp1, hp2] at hp
        simp only [] at hp
        unfold ValueExpr.EvaluateF at he
        cases he1 : e1.EvaluateF ctx with
        | none => rw [he1] at he; simp at he
        | some res1 =>
          obtain ⟨c1, r1, ctx1⟩ := res1
          rw [he1] at he
          simp only [] at he
          cases he2 : e2.EvaluateF ctx1 with
          | none => rw [he2] at he; simp at he
          | some res2 =>
            obtain ⟨c2, r2, ctx2⟩ := res2
            rw [he2] at he
            simp [releaseTemp, reserveTemp] at he
            cases hlk : List.lookup op BinaryValueExpression.op_to_instruction with
            | none => rw [hlk] at he; simp at he
            | some m =>
              rw [hlk] at he
              simp only [] at he
              cases hmi : mkBinaryInstr m r2 r1 r2 with
              | none => rw [hmi] at he; simp at he
              | some instr =>
                rw [hmi] at he
                simp at he
                obtain ⟨h1, h2, h3⟩ := he
                subst h1; subst h2; subst h3
                obtain ⟨a1, a2, a3, a4, a5, a6⟩ :=
                  evalF_spec e1 ctx a c1 r1 ctx1 hp1 he1 hn
                obtain ⟨b1, b2, b3, b4, b5, b6⟩ :=
                  evalF_spec e2 ctx1 b c2 r2 ctx2 hp2 he2 a4
                have hexec := binary_instr_exec hlk hmi hp
                have hr2mem : r2 ∈ ctx.free_registers := a2 r2 b1
                have hr12 : r1 ≠ r2 := fun h => a3 (h ▸ b1)
                have hr1nc2 : r1 ∉ ctx2.free_registers := fun h => a3 (b2 r1 h)
                refine ⟨hr2mem, ?_, ?_, ?_, ?_, ?_⟩
                · intro x hx
                  rcases List.mem_cons.mp hx with h | h
                  · exact h ▸ a1
                  · exact a2 x (b2 x h)
                · intro hmem
                  rcases List.mem_cons.mp hmem with h | h
                  · exact hr12 h.symm
                  · exact b3 h
                · exact List.nodup_cons.mpr ⟨hr1nc2, b4⟩
                · intro f x hx
                  rw [runInstrs_append, runInstrs_append]
                  have hx1 : x ∉ ctx1.free_registers := fun h => hx (a2 x h)
                  have hxr2 : x ≠ r2 := fun h => hx (h ▸ hr2mem)
                  have hg2r1 : runInstrs c2 (runInstrs c1 f) r1 = a := by
                    rw [b5 (runInstrs c1 f) r1 a3, a6 f]
                  have hg2r2 : runInstrs c2 (runInstrs c1 f) r2 = b :=
                    b6 (runInstrs c1 f)
                  have hstep := (hexec (runInstrs c2 (runInstrs c1 f)) hg2r1 hg2r2).2
                    x hxr2
                  simp only [runInstrs] at hstep ⊢
                  rw [hstep, b5 (runInstrs c1 f) x hx1, a5 f x hx]
                · intro f
                  rw [runInstrs_append, runInstrs_append]
                  have hg2r1 : runInstrs c2 (runInstrs c1 f) r1 = a := by
                    rw [b5 (runInstrs c1 f) r1 a3, a6 f]
                  have hg2r2 : runInstrs c2 (runInstrs c1 f) r2 = b :=
                    b6 (runInstrs c1 f)
                  have hstep := (hexec (runInstrs c2 (runInstrs c1 f)) hg2r1 hg2r2).1
                  simp only [runInstrs] at hstep ⊢
                  exact hstep
  | .variable n l, ctx, r, is, reg, ctx', hp, he, hn => by
    simp [ValueExpr.EvaluateF] at he
  | .arrayAccess n i l, ctx, r, is, reg, ctx', hp, he, hn => by
    simp [ValueExpr.EvaluateF] at he
  | .assignment lv e l, ctx, r, is, reg, ctx', hp, he, hn => by
    simp [ValueExpr.EvaluateF] at he
  | .call n args l, ctx, r, is, reg, ctx', hp, he, hn => by
    simp [ValueExpr.EvaluateF] at he
  | .valueCast b l, ctx, r, is, reg, ctx', hp, he, hn => by
    simp [ValueExpr.EvaluateF] at he

theorem i32pat_ofNat {r : Nat} (h : r < 4294967296) : i32pat (Int.ofNat r) = r := by
  show ((r : Int) % 4294967296).toNat = r
  omega

theorem applyUnary_isSome (op : String) (a : Nat) :
    (applyUnary op a).isSome = true ↔ (op = "+" ∨ op = "-" ∨ op = "~") := by
  unfold applyUnary
  split_ifs <;> simp_all

theorem applyBinary_isSome (op : String) (a b : Nat) :
    (applyBinary op a b).isSome = true ↔
      ((op = "+" ∨ op = "-" ∨ op = "*" ∨ op = "&" ∨ op = "|" ∨ op = "^") ∨
       (op = "/" ∧ b ≠ 0)) := by
  unfold applyBinary
  split_ifs <;> simp_all

/-! ### Claim theorems -/

/-- Claim C1: every public constructor stores a child of the required
category unchanged and wraps a child of the other category in exactly
one cast (`ValueCast` around a boolean child in a value position,
`BooleanCast` around a value child in a boolean position); in
particular a child that is already a cast of the required category is
never wrapped again. -/
theorem C1_construction_coercion :
    ∀ (v : ValueExpr) (b : BoolExpr) (op : String) (lv : LValue)
      (name : String) (tB eB bodyB : StatementBlock) (init : List Stmt)
      (step : Expr) (cv : List (Option Int)) (cb : List (List Stmt))
      (l sl : Location),
    ValueCast.IfNeeded (.val v) = .ok v ∧
    ValueCast.IfNeeded (.boolean b) = .ok (.valueCast b b.location) ∧
    BooleanCast.IfNeeded (.boolean b) = .ok b ∧
    BooleanCast.IfNeeded (.val v) = .ok (.boolCast v v.location) ∧
    ValueCast.IfNeeded (.val (.valueCast b l)) = .ok (.valueCast b l) ∧
    BooleanCast.IfNeeded (.boolean (.boolCast v l)) = .ok (.boolCast v l) ∧
    mkUnaryValueExpression op (.val v) l =
      (if op ≠ "+" ∧ op ≠ "-" ∧ op ≠ "~" then
        .error (.domainError "invalid operator")
       else .ok (.unary op v (Location.comb l v.location))) ∧
    mkUnaryValueExpression op (.boolean b) l =
      (if op ≠ "+" ∧ op ≠ "-" ∧ op ≠ "~" then
        .error (.domainError "invalid operator")
       else .ok (.unary op (.valueCast b b.location) (Location.comb l b.location))) ∧
    mkBinaryValueExpression op (.val v) (.boolean b) =
      (if op ≠ "+" ∧ op ≠ "-" ∧ op ≠ "*" ∧ op ≠ "/" ∧ op ≠ "&" ∧ op ≠ "|" ∧ op ≠ "^" then
        .error (.domainError "invalid operator")
       else .ok (.binary op v (.valueCast b b.location)
              (Location.comb v.location b.location))) ∧
    mkBinaryValueExpression op (.boolean b) (.val v) =
      (if op ≠ "+" ∧ op ≠ "-" ∧ op ≠ "*" ∧ op ≠ "/" ∧ op ≠ "&" ∧ op ≠ "|" ∧ op ≠ "^" then
        .error (.domainError "invalid operator")
       else .ok (.binary op (.valueCast b b.location) v
              (Location.comb b.location v.location))) ∧
    mkAssignmentExpression lv (.val v) =
      .ok (.assignment lv v (Location.comb lv.location v.location)) ∧
    mkAssignmentExpression lv (.boolean b) =
      .ok (.assignment lv (.valueCast b b.location) (Location.comb lv.location b.location)) ∧
    mkArrayAccessExpression name (.val v) l = .ok (.arrayAccess name v l) ∧
    mkArrayAccessExpression name (.boolean b) l =
      .ok (.arrayAccess name (.valueCast b b.location) l) ∧
    mkReturnStatement (.val v) l = .ok (.returnS (some v) l) ∧
    mkReturnStatement (.boolean b) l =
      .ok (.returnS (some (.valueCast b b.location)) l) ∧
    mkRelationalExpression op (.val v) (.boolean b) =
      (if op ≠ "==" ∧ op ≠ "!=" ∧ op ≠ "<=" ∧ op ≠ ">=" ∧ op ≠ "<" ∧ op ≠ ">" then
        .error (.domainError "invalid operator")
       else .ok (.relational op v (.valueCast b b.location)
              (Location.comb v.location b.location))) ∧
    mkRelationalExpression op (.boolean b) (.val v) =
      (if op ≠ "==" ∧ op ≠ "!=" ∧ op ≠ "<=" ∧ op ≠ ">=" ∧ op ≠ "<" ∧ op ≠ ">" then
        .error (.domainError "invalid operator")
       else .ok (.relational op (.valueCast b b.location) v
              (Location.comb b.location v.location))) ∧
    mkUnaryBooleanExpression op (.boolean b) l =
      (if op ≠ "!" then .error (.domainError "invalid operator")
       else .ok (.unaryBool op b (Location.comb l b.location))) ∧
    mkUnaryBooleanExpression op (.val v) l =
      (if op ≠ "!" then .error (.domainError "invalid operator")
       else .ok (.unaryBool op (.boolCast v v.location) (Location.comb l v.location))) ∧
    mkBinaryBooleanExpression op (.boolean b) (.val v) =
      (if op ≠ "&&" ∧ op ≠ "||" then .error (.domainError "invalid operator")
       else .ok (.binaryBool op b (.boolCast v v.location)
              (Location.comb b.location v.location))) ∧
    mkBinaryBooleanExpression op (.val v) (.boolean b) =
      (if op ≠ "&&" ∧ op ≠ "||" then .error (.domainError "invalid operator")
       else .ok (.binaryBool op (.boolCast v v.location) b
              (Location.comb v.location b.location))) ∧
    mkIfElseStatement (.boolean b) tB eB l = .ok (.ifElseS b tB eB l) ∧
    mkIfElseStatement (.val v) tB eB l =
      .ok (.ifElseS (.boolCast v v.location) tB eB l) ∧
    mkWhileStatement (.boolean b) bodyB l = .ok (.whileS b bodyB l) ∧
    mkWhileStatement (.val v) bodyB l =
      .ok (.whileS (.boolCast v v.location) bodyB l) ∧
    mkForStatement init (.boolean b) step bodyB l =
      .ok (.forS init b step bodyB (Location.comb l bodyB.location)) ∧
    mkForStatement init (.val v) step bodyB l =
      .ok (.forS init (.boolCast v v.location) step bodyB
            (Location.comb l bodyB.location)) ∧
    SwitchStatement.SetExpression (.mk none cv cb sl) (.val v) =
      .ok (.mk (some v) cv cb sl) ∧
    SwitchStatement.SetExpression (.mk none cv cb sl) (.boolean b) =
      .ok (.mk (some (.valueCast b b.location)) cv cb sl) := by
  intros
  exact ⟨rfl, rfl, rfl, rfl, rfl, rfl, rfl, rfl, rfl, rfl, rfl, rfl, rfl, rfl,
    rfl, rfl, rfl, rfl, rfl, rfl, rfl, rfl, rfl, rfl, rfl, rfl, rfl, rfl, rfl, rfl⟩

/-- Claim C2: when `Precomputable` returns a result `r` for a value
expression, the code emitted for that subtree leaves `r` in its result
register under every initial register file, exactly as the single
`li reg, r` emitted for `ConstantExpression(r)` does; in the embedding
`Precomputable` is a pure function, so it has no side effects. -/
theorem C2_precomputable_equiv_constant :
    ∀ (e : ValueExpr) (ctx : ExpressionContext) (r : Nat) (is : List Instr)
      (reg : String) (ctx' : ExpressionContext) (l : Location),
    e.Precomputable = some r →
    e.EvaluateF ctx = some (is, reg, ctx') →
    ctx.free_registers.Nodup →
    ∃ isc regc ctxc,
      (ValueExpr.constant (Int.ofNat r) l).EvaluateF ctx = some (isc, regc, ctxc) ∧
      isc = [Instr.li regc r] ∧
      (∀ f : RegFile, runInstrs is f reg = r) ∧
      (∀ f : RegFile, runInstrs isc f regc = r) := by
  intro e ctx r is reg ctx' l hp he hn
  obtain ⟨m1, _, _, _, _, m6⟩ := evalF_spec e ctx r is reg ctx' hp he hn
  have hrlt : r < 4294967296 := precompute_lt e r hp
  obtain ⟨free, lc⟩ := ctx
  cases free with
  | nil => simp at m1
  | cons t rest =>
    refine ⟨[Instr.li t r], t, ⟨rest, lc⟩, ?_, rfl, m6, ?_⟩
    · simp [ValueExpr.EvaluateF, reserveTemp]
      exact i32pat_ofNat hrlt
    · intro f
      simp [runInstrs, Instr.exec, setReg, w32_eq_of_lt hrlt]

/-- Witness for C2 at the concrete tree `2 + 3`. -/
theorem C2_witness :
    ∃ isc regc ctxc,
      (ValueExpr.constant (Int.ofNat 5) locD).EvaluateF ctxT = some (isc, regc, ctxc) ∧
      isc = [Instr.li regc 5] ∧
      (∀ f : RegFile,
        runInstrs [Instr.li "$t0" 2, Instr.li "$t1" 3,
          Instr.addu "$t1" "$t0" "$t1"] f "$t1" = 5) ∧
      (∀ f : RegFile, runInstrs isc f regc = 5) :=
  C2_precomputable_equiv_constant
    (.binary "+" (.constant 2 locD) (.constant 3 locD) locD) ctxT 5
    [Instr.li "$t0" 2, Instr.li "$t1" 3, Instr.addu "$t1" "$t0" "$t1"] "$t1"
    ⟨["$t0", "$t2", "$t3", "$t4", "$t5", "$t6", "$t7", "$t8", "$t9"], localT⟩
    locD (by decide) (by decide) (by decide)

/-- Counterexample to claim C3 as stated: in `1 / 0` both children are
precomputable, the node is a `BinaryValueExpression` with a valid
operator, yet `Precomputable` returns false because the divisor folds
to zero. -/
theorem C3_counterexample :
    (ValueExpr.constant 1 locD).Precomputable = some 1 ∧
    (ValueExpr.constant 0 locD).Precomputable = some 0 ∧
    List.lookup "/" BinaryValueExpression.op_to_instruction = some "divu" ∧
    (ValueExpr.binary "/" (.constant 1 locD) (.constant 0 locD) locD).Precomputable
      = none := by
  refine ⟨?_, ?_, ?_, ?_⟩ <;> decide

/-- Claim C3 as amended: `Precomputable` returns a result exactly on
constants, on unary nodes with a valid operator and a precomputable
child, and on binary nodes with a valid operator and precomputable
children — except that `/` additionally requires the divisor to fold
to a nonzero value; every other variant, string literals included,
returns false. -/
theorem C3_amended_precomputable_characterisation :
    ∀ (v : Int) (name : String) (op : String) (e e1 e2 : ValueExpr)
      (lv : LValue) (b : BoolExpr) (args : List ValueExpr) (s : String)
      (l : Location),
    (ValueExpr.constant v l).Precomputable = some (i32pat v) ∧
    (ValueExpr.variable name l).Precomputable = none ∧
    (ValueExpr.arrayAccess name e l).Precomputable = none ∧
    (ValueExpr.assignment lv e l).Precomputable = none ∧
    (ValueExpr.call name args l).Precomputable = none ∧
    (ValueExpr.valueCast b l).Precomputable = none ∧
    StringLiteral.Precomputable s l = none ∧
    (((ValueExpr.unary op e l).Precomputable).isSome = true ↔
      ((op = "+" ∨ op = "-" ∨ op = "~") ∧ (e.Precomputable).isSome = true)) ∧
    (((ValueExpr.binary op e1 e2 l).Precomputable).isSome = true ↔
      (((op = "+" ∨ op = "-" ∨ op = "*" ∨ op = "&" ∨ op = "|" ∨ op = "^") ∧
        (e1.Precomputable).isSome = true ∧ (e2.Precomputable).isSome = true) ∨
       (op = "/" ∧ (e1.Precomputable).isSome = true ∧
        (∃ d, e2.Precomputable = some d ∧ d ≠ 0)))) := by
  intro v name op e e1 e2 lv b args s l
  refine ⟨rfl, rfl, rfl, rfl, rfl, rfl, rfl, ?_, ?_⟩
  · cases he : e.Precomputable with
    | none => simp [ValueExpr.Precomputable, he]
    | some a => simp [ValueExpr.Precomputable, he, applyUnary_isSome]
  · cases h1 : e1.Precomputable with
    | none => simp [ValueExpr.Precomputable, h1]
    | some a =>
      cases h2 : e2.Precomputable with
      | none => simp [ValueExpr.Precomputable, h1, h2]
      | some d =>
        simp [ValueExpr.Precomputable, h1, h2, applyBinary_isSome]

/-- Counterexample to claim C4 as stated: using a `StringLiteral` in a
value position does not produce a user-facing `CompileError`; the
coercion helper and `StringLiteral::Evaluate` hit `assert(false)`. -/
theorem C4_counterexample :
    ValueCast.IfNeeded (Expr.strLit "hello" locD) =
      .error CompilerErr.assertionFailure ∧
    erredWithCompileError (ValueCast.IfNeeded (Expr.strLit "hello" locD)) = false ∧
    StringLiteral.Evaluate "hello" locD ctxT =
      .error CompilerErr.assertionFailure ∧
    erredWithCompileError (StringLiteral.Evaluate "hello" locD ctxT) = false :=
  ⟨rfl, rfl, rfl, rfl⟩

/-- Claim C4 as amended: using a `StringLiteral` anywhere other than as
a global initializer — evaluating it, or handing it to any constructor
position requiring a value or boolean expression — hits the internal
`assert(false)` path, an internal invariant failure rather than a
user-facing `CompileError`. -/
theorem C4_amended_string_literal_asserts :
    ∀ (s : String) (l loc : Location) (op : String) (ctx : ExpressionContext)
      (lv : LValue) (tB eB bodyB : StatementBlock) (init : List Stmt)
      (step : Expr) (cv : List (Option Int)) (cb : List (List Stmt))
      (sl : Location) (name : String),
    ValueCast.IfNeeded (.strLit s l) = .error .assertionFailure ∧
    BooleanCast.IfNeeded (.strLit s l) = .error .assertionFailure ∧
    StringLiteral.Evaluate s l ctx = .error .assertionFailure ∧
    mkUnaryValueExpression op (.strLit s l) loc = .error .assertionFailure ∧
    mkBinaryValueExpression op (.strLit s l) (.strLit s l) = .error .assertionFailure ∧
    mkRelationalExpression op (.strLit s l) (.strLit s l) = .error .assertionFailure ∧
    mkUnaryBooleanExpression op (.strLit s l) loc = .error .assertionFailure ∧
    mkBinaryBooleanExpression op (.strLit s l) (.strLit s l) = .error .assertionFailure ∧
    mkAssignmentExpression lv (.strLit s l) = .error .assertionFailure ∧
    mkArrayAccessExpression name (.strLit s l) loc = .error .assertionFailure ∧
    mkReturnStatement (.strLit s l) loc = .error .assertionFailure ∧
    mkIfElseStatement (.strLit s l) tB eB loc = .error .assertionFailure ∧
    mkWhileStatement (.strLit s l) bodyB loc = .error .assertionFailure ∧
    mkForStatement init (.strLit s l) step bodyB loc = .error .assertionFailure ∧
    SwitchStatement.SetExpression (.mk none cv cb sl) (.strLit s l) =
      .error .assertionFailure ∧
    CompilerErr.assertionFailure.isCompileError = false := by
  intros
  exact ⟨rfl, rfl, rfl, rfl, rfl, rfl, rfl, rfl, rfl, rfl, rfl, rfl, rfl, rfl,
    rfl, rfl⟩

/-- Claim C5: compiling a boolean expression at statement level mints
exactly one fresh label `L` from the global counter, evaluates the
expression with `L` as both the true target and the false target, and
appends the definition of `L` immediately after the evaluated code. -/
theorem C5_statement_level_boolean_compile :
    ∀ (Evaluate : ExpressionContext → String → String → Code × ExpressionContext)
      (ctx : LocalContext),
    (BooleanExpression.Compile Evaluate ctx).1 =
      (Evaluate (ExpressionContext.fromLocal
          ⟨⟨ctx.global_context.label_counter + 1, ctx.global_context.symbols⟩,
            ctx.scopes⟩)
        ("L" ++ toString ctx.global_context.label_counter)
        ("L" ++ toString ctx.global_context.label_counter)).1 ++
      Code.ofText (tab ++ ("L" ++ toString ctx.global_context.label_counter) ++ ":\n") ∧
    (BooleanExpression.Compile Evaluate ctx).2 =
      (Evaluate (ExpressionContext.fromLocal
          ⟨⟨ctx.global_context.label_counter + 1, ctx.global_context.symbols⟩,
            ctx.scopes⟩)
        ("L" ++ toString ctx.global_context.label_counter)
        ("L" ++ toString ctx.global_context.label_counter)).2.local_context ∧
    (GlobalContext.NewLabel ctx.global_context).1 =
      "L" ++ toString ctx.global_context.label_counter ∧
    (GlobalContext.NewLabel ctx.global_context).2.label_counter =
      ctx.global_context.label_counter + 1 := by
  intro Evaluate ctx
  exact ⟨rfl, rfl, rfl, rfl⟩

/-- Claim C6: each operator-node constructor accepts exactly its
operator set and throws `std::domain_error("invalid operator")` on any
other operator name; such an error is never the user-facing
`CompileError` kind that reaches the diagnostics channel. -/
theorem C6_operator_sets_domain_error :
    ∀ (op : String) (v v2 : ValueExpr) (b b2 : BoolExpr) (l : Location),
    (isOkE (mkUnaryValueExpression op (.val v) l) = true ↔
      (op = "+" ∨ op = "-" ∨ op = "~")) ∧
    (¬(op = "+" ∨ op = "-" ∨ op = "~") →
      mkUnaryValueExpression op (.val v) l =
        .error (.domainError "invalid operator")) ∧
    (isOkE (mkBinaryValueExpression op (.val v) (.val v2)) = true ↔
      (op = "+" ∨ op = "-" ∨ op = "*" ∨ op = "/" ∨ op = "&" ∨ op = "|" ∨ op = "^")) ∧
    (¬(op = "+" ∨ op = "-" ∨ op = "*" ∨ op = "/" ∨ op = "&" ∨ op = "|" ∨ op = "^") →
      mkBinaryValueExpression op (.val v) (.val v2) =
        .error (.domainError "invalid operator")) ∧
    (isOkE (mkUnaryBooleanExpression op (.boolean b) l) = true ↔ op = "!") ∧
    (op ≠ "!" →
      mkUnaryBooleanExpression op (.boolean b) l =
        .error (.domainError "invalid operator")) ∧
    (isOkE (mkBinaryBooleanExpression op (.boolean b) (.boolean b2)) = true ↔
      (op = "&&" ∨ op = "||")) ∧
    (¬(op = "&&" ∨ op = "||") →
      mkBinaryBooleanExpression op (.boolean b) (.boolean b2) =
        .error (.domainError "invalid operator")) ∧
    (isOkE (mkRelationalExpression op (.val v) (.val v2)) = true ↔
      (op = "==" ∨ op = "!=" ∨ op = "<=" ∨ op = ">=" ∨ op = "<" ∨ op = ">")) ∧
    (¬(op = "==" ∨ op = "!=" ∨ op = "<=" ∨ op = ">=" ∨ op = "<" ∨ op = ">") →
      mkRelationalExpression op (.val v) (.val v2) =
        .error (.domainError "invalid operator")) ∧
    erredWithCompileError (mkUnaryValueExpression op (.val v) l) = false ∧
    erredWithCompileError (mkBinaryValueExpression op (.val v) (.val v2)) = false ∧
    erredWithCompileError (mkUnaryBooleanExpression op (.boolean b) l) = false ∧
    erredWithCompileError (mkBinaryBooleanExpression op (.boolean b) (.boolean b2)) = false ∧
    erredWithCompileError (mkRelationalExpression op (.val v) (.val v2)) = false := by
  intro op v v2 b b2 l
  refine ⟨?_, ?_, ?_, ?_, ?_, ?_, ?_, ?_, ?_, ?_, ?_, ?_, ?_, ?_, ?_⟩ <;>
    first
      | (simp only [mkUnaryValueExpression, ValueCast.IfNeeded]
         split_ifs with h <;> simp [isOkE, erredWithCompileError, CompilerErr.isCompileError] <;> tauto)
      | (simp only [mkBinaryValueExpression, ValueCast.IfNeeded]
         split_ifs with h <;> simp [isOkE, erredWithCompileError, CompilerErr.isCompileError] <;> tauto)
      | (simp only [mkUnaryBooleanExpression, BooleanCast.IfNeeded]
         split_ifs with h <;> simp [isOkE, erredWithCompileError, CompilerErr.isCompileError] <;> tauto)
      | (simp only [mkBinaryBooleanExpression, BooleanCast.IfNeeded]
         split_ifs with h <;> simp [isOkE, erredWithCompileError, CompilerErr.isCompileError] <;> tauto)
      | (simp only [mkRelationalExpression, ValueCast.IfNeeded]
         split_ifs with h <;> simp [isOkE, erredWithCompileError, CompilerErr.isCompileError] <;> tauto)

/-- Witness for C6 at concrete operator names. -/
theorem C6_witness :
    mkUnaryValueExpression "%"
      (.val (.constant 0 locD)) locD = .error (.domainError "invalid operator") ∧
    mkRelationalExpression "+"
      (.val (.constant 0 locD)) (.val (.constant 1 locD)) =
        .error (.domainError "invalid operator") :=
  ⟨(C6_operator_sets_domain_error "%" (.constant 0 locD) (.constant 1 locD)
      (.boolCast (.constant 0 locD) locD) (.boolCast (.constant 0 locD) locD)
      locD).2.1 (by decide),
   (C6_operator_sets_domain_error "+" (.constant 0 locD) (.constant 1 locD)
      (.boolCast (.constant 0 locD) locD) (.boolCast (.constant 0 locD) locD)
      locD).2.2.2.2.2.2.2.2.2.1 (by decide)⟩

/-- Claim C7: assigning through a `VariableExpression` whose name does
not resolve in the local chain nor globally throws a `CompileError`
carrying the expression location and a message naming the symbol; when
the name resolves, the emitted code is the load of the source value
into `$v0` followed by the save of the resolved symbol from `$v0`. -/
theorem C7_variable_assign :
    ∀ (name : String) (loc : Location) (ctx : LocalContext)
      (value s : CSymbol) (save : Code),
    (ctx.lookup name = none →
      VariableExpression.Assign name loc ctx value =
        .error (.compileError loc ("undefined symbol \"" ++ name ++ "\""))) ∧
    (ctx.lookup name = some s → s.SaveValue "$v0" = .ok save →
      VariableExpression.Assign name loc ctx value =
        .ok (value.LoadValue "$v0" ++ save)) := by
  intro name loc ctx value s save
  constructor
  · intro h
    simp [VariableExpression.Assign, h]
  · intro h hs
    simp [VariableExpression.Assign, h, hs]

/-- Witness for C7: a resolvable name emits load-then-save, an
unresolvable one raises the located `CompileError`. -/
theorem C7_witness :
    VariableExpression.Assign "x" locD ctxW (CSymbol.temporary 3) =
      .ok (CSymbol.LoadValue (CSymbol.temporary 3) "$v0" ++
        Code.ofText (tab ++ "sw $v0, " ++ toString (-4 : Int) ++ "($fp)\n")) ∧
    VariableExpression.Assign "y" locD ctxW (CSymbol.temporary 3) =
      .error (.compileError locD ("undefined symbol \"" ++ "y" ++ "\"")) :=
  ⟨(C7_variable_assign "x" locD ctxW (CSymbol.temporary 3)
      (CSymbol.localVariable (-4))
      (Code.ofText (tab ++ "sw $v0, " ++ toString (-4 : Int) ++ "($fp)\n"))).2
      (by decide) (by rfl),
   (C7_variable_assign "y" locD ctxW (CSymbol.temporary 3)
      (CSymbol.temporary 0) (Code.ofText "")).1 (by decide)⟩

/-- Claim C8: the three operator-to-instruction maps are exactly the
claimed mappings, and the emitter consumes them when emitting operator
nodes. -/
theorem C8_operator_instruction_mapping :
    List.lookup "+" BinaryValueExpression.op_to_instruction = some "addu" ∧
    List.lookup "-" BinaryValueExpression.op_to_instruction = some "subu" ∧
    List.lookup "*" BinaryValueExpression.op_to_instruction = some "mul" ∧
    List.lookup "/" BinaryValueExpression.op_to_instruction = some "divu" ∧
    List.lookup "&" BinaryValueExpression.op_to_instruction = some "and" ∧
    List.lookup "|" BinaryValueExpression.op_to_instruction = some "or" ∧
    List.lookup "^" BinaryValueExpression.op_to_instruction = some "xor" ∧
    List.lookup "+" UnaryValueExpression.op_to_instruction = some "move" ∧
    List.lookup "-" UnaryValueExpression.op_to_instruction = some "negu" ∧
    List.lookup "~" UnaryValueExpression.op_to_instruction = some "not" ∧
    List.lookup "==" RelationalExpression.op_to_instruction = some "beq" ∧
    List.lookup "!=" RelationalExpression.op_to_instruction = some "bne" ∧
    List.lookup "<" RelationalExpression.op_to_instruction = some "blt" ∧
    List.lookup "<=" RelationalExpression.op_to_instruction = some "ble" ∧
    List.lookup ">" RelationalExpression.op_to_instruction = some "bgt" ∧
    List.lookup ">=" RelationalExpression.op_to_instruction = some "bge" ∧
    (ValueExpr.unary "-" (.constant 5 locD) locD).EvaluateF ctxT =
      some ([Instr.li "$t0" 5, Instr.negu "$t0" "$t0"], "$t0",
        ⟨["$t1", "$t2", "$t3", "$t4", "$t5", "$t6", "$t7", "$t8", "$t9"], localT⟩) ∧
    (ValueExpr.binary "+" (.constant 2 locD) (.constant 3 locD) locD).EvaluateF ctxT =
      some ([Instr.li "$t0" 2, Instr.li "$t1" 3, Instr.addu "$t1" "$t0" "$t1"],
        "$t1",
        ⟨["$t0", "$t2", "$t3", "$t4", "$t5", "$t6", "$t7", "$t8", "$t9"], localT⟩) := by
  refine ⟨?_, ?_, ?_, ?_, ?_, ?_, ?_, ?_, ?_, ?_, ?_, ?_, ?_, ?_, ?_, ?_, ?_, ?_⟩ <;>
    decide

/-- Claim C9: the assignment target is statically an lvalue expression,
the only lvalue variants are variables and array accesses, and virtual
dispatch of `Assign` on any constructible lvalue never lands on the
`assert(false)` default of the `LValueExpression` base class. -/
theorem C9_assignment_target_structural :
    ∀ (lv : LValue) (e : ValueExpr) (rhs : ValueExpr),
    assignDispatch lv.toValueExpr ≠ .baseDefault ∧
    isLValue lv.toValueExpr = true ∧
    (assignDispatch e = .baseDefault ↔ isLValue e = false) ∧
    mkAssignmentExpression lv (.val rhs) =
      .ok (.assignment lv rhs (Location.comb lv.location rhs.location)) := by
  intro lv e rhs
  refine ⟨?_, ?_, ?_, rfl⟩
  · cases lv <;> simp [LValue.toValueExpr, assignDispatch]
  · cases lv <;> rfl
  · cases e <;> simp [assignDispatch, isLValue]

/-- Claim C10: a `MainFunctionDefinition` always carries the function
name `"main"` and an empty parameter list, whatever return type and
body it is constructed with. -/
theorem C10_main_function_definition :
    ∀ (type : SymbolType) (body : StatementBlock) (loc : Location),
    (mkMainFunctionDefinition type body loc).name = "main" ∧
    (mkMainFunctionDefinition type body loc).params = [] ∧
    (mkMainFunctionDefinition type body loc).type = type ∧
    (mkMainFunctionDefinition type body loc).body = body := by
  intro type body loc
  exact ⟨rfl, rfl, rfl, rfl⟩
